import Mathlib

/-!
Verification of the natural-language specification of the pulsar WSGI
HTTP/1.x response engine (`pulsar/apps/wsgi/server.py`) against a shallow
embedding of its code.

Byte strings are modelled as `List Char` (the source treats bytes opaquely,
one `Char` per byte).  The `Headers` container, the hop-by-hop header list,
the redirect-code set and the empty-content status predicate live in
`pulsar.utils`, which is not part of the sources under verification; they
are modelled from the spec where marked.
-/

namespace Pulsar

/-- Byte strings: one `Char` per byte. -/
abbrev ByteStr := List Char

/-- `str.lower()`: character-wise lowercasing, defined over the character
list so that concrete instances reduce in the kernel. -/
def lowerStr (s : String) : String := ⟨s.data.map Char.toLower⟩

/-- The CRLF line terminator. -/
def CRLF : ByteStr := ['\r', '\n']

/-- Modelled from the spec: `HeaderSet` (pulsar.utils.httpurl.Headers is not
under src/) — an ordered multi-map of header name to value with
case-insensitive name lookup (spec section 4.1). -/
structure Headers where
  entries : List (String × String)
deriving DecidableEq

/-- Modelled from the spec: `get` returns the first value whose name matches
case-insensitively, or none. -/
def Headers.get (h : Headers) (name : String) : Option String :=
  (h.entries.find? (fun p => (lowerStr p.1) = (lowerStr name))).map (fun p => p.2)

/-- Modelled from the spec: `getAll` returns every value stored under the
(case-insensitively compared) name, in insertion order. -/
def Headers.get_all (h : Headers) (name : String) : List String :=
  (h.entries.filter (fun p => (lowerStr p.1) = (lowerStr name))).map (fun p => p.2)

/-- Modelled from the spec: `add` appends and never overwrites. -/
def Headers.add_header (h : Headers) (name value : String) : Headers :=
  ⟨h.entries ++ [(name, value)]⟩

/-- Modelled from the spec: mapping-style assignment `headers[name] = value`
replaces every value stored under the case-insensitively compared name. -/
def Headers.set (h : Headers) (name value : String) : Headers :=
  ⟨h.entries.filter (fun p => (lowerStr p.1) ≠ (lowerStr name)) ++ [(name, value)]⟩

/-- Modelled from the spec: `remove`/`pop` drops every value stored under the
case-insensitively compared name. -/
def Headers.pop (h : Headers) (name : String) : Headers :=
  ⟨h.entries.filter (fun p => (lowerStr p.1) ≠ (lowerStr name))⟩

/-- Modelled from the spec: `has(name, value)` tests whether `value` is among
the values stored under `name` (value compared case-insensitively). -/
def Headers.has (h : Headers) (name value : String) : Bool :=
  (h.get_all name).any (fun w => (lowerStr w) = (lowerStr value))

/-- Modelled from the spec: `flatten` renders the status line plus all headers
terminated by a blank line (spec sections 4.1 and 6). -/
def Headers.flat (h : Headers) (version : Nat × Nat) (status : String) : ByteStr :=
  ("HTTP/" ++ toString version.1 ++ "." ++ toString version.2 ++ " " ++ status ++ "\r\n"
    ++ String.join (h.entries.map (fun p => p.1 ++ ": " ++ p.2 ++ "\r\n"))
    ++ "\r\n").toList

/-- Modelled from the spec: the hop-by-hop header deny-list `HOP_HEADERS`
(`Connection`, `Transfer-Encoding`, `Keep-Alive`, `Upgrade`, `Proxy-*`, etc.;
spec section 4.4 and glossary), lowercased as the code compares it. -/
def HOP_HEADERS : List String :=
  ["connection", "keep-alive", "proxy-authenticate", "proxy-authorization",
   "te", "trailers", "transfer-encoding", "upgrade"]

/-- Modelled from the spec: `REDIRECT_CODES` — the redirect-class statuses. -/
def REDIRECT_CODE (c : Nat) : Bool := 300 ≤ c && c < 400

/-- Modelled from the spec: `has_empty_content` — statuses with a
status-defined empty body (1xx, 204, 304). -/
def has_empty_content (status : Nat) : Bool :=
  (100 ≤ status && status ≤ 199) || status == 204 || status == 304

/-- Python tuple comparison `version <= (major, minor)` (lexicographic). -/
def versionLE (v w : Nat × Nat) : Bool :=
  decide (v.1 < w.1 ∨ (v.1 = w.1 ∧ v.2 ≤ w.2))

/-- Value of a non-empty all-digit string, none otherwise.  Used to model
Python `int(...)` applied to header values (Python raises on non-numeric
input; theorems that touch this restrict to numeric-or-empty values). -/
def digitsVal (cs : List Char) : Option Nat :=
  if cs ≠ [] ∧ cs.all Char.isDigit then
    some (cs.foldl (fun a c => 10 * a + (c.toNat - 48)) 0)
  else none

/-- `int(self.status[:3])`: numeric value of the first three characters of the
WSGI status string ("200 OK" → 200).  Total with default 0; the code raises
on a malformed status, theorems use well-formed ones. -/
def statusCode (s : String) : Nat :=
  (digitsVal (s.toList.take 3)).getD 0

/-- The `content_length` property: `c = headers.get('Content-Length');
if c: return int(c)` — an absent or empty (falsy) value yields none. -/
def content_length (h : Headers) : Option Nat :=
  match h.get "Content-Length" with
  | none => none
  | some c => if c = "" then none else digitsVal c.toList

/-- `keep_alive(headers, version)` from the source: decides connection reuse
from the lowercased values of the `Connection` header and mutates the
outgoing header in the upgrade and HTTP/1.1-default cases.  Returns the
decision together with the updated headers. -/
def keep_alive (h : Headers) (version : Nat × Nat) : Bool × Headers :=
  let conn := (h.get_all "connection").map lowerStr
  if conn.contains "close" then (false, h)
  else if conn.contains "upgrade" then (true, h.set "connection" "Upgrade")
  else if conn.contains "keep-alive" then (true, h)
  else if version = (1, 1) then (true, h.set "connection" "keep-alive")
  else (false, h)

/-- Response-cycle state of `HttpServerResponse`: `_status`, `headers`,
`_headers_sent` (holds the flattened header bytes once sent), `keep_alive`,
and the request protocol version. -/
structure RState where
  status : Option String
  headers : Headers
  headersSent : Option ByteStr
  keepAlive : Bool
  version : Nat × Nat
deriving DecidableEq

/-- The `upgrade` property: `self.headers.get('Upgrade')`. -/
def RState.upgrade (st : RState) : Option String :=
  st.headers.get "Upgrade"

/-- The `chunked` property: `self.headers.get('Transfer-Encoding') == 'chunked'`. -/
def RState.chunkedHdr (st : RState) : Bool :=
  st.headers.get "Transfer-Encoding" == some "chunked"

/-- `is_chunked` from the source: never for HTTP <= 1.0; never for statuses
with a status-defined empty body; forced when the headers already carry
`Transfer-Encoding: chunked`; otherwise exactly when the `content_length`
property is none. -/
def RState.is_chunked (st : RState) : Bool :=
  if versionLE st.version (1, 0) then false
  else if has_empty_content (statusCode (st.status.getD "")) then false
  else if st.headers.get "Transfer-Encoding" == some "chunked" then true
  else content_length st.headers == none

/-- The chunked-eligibility rule exactly as the claim states it, as a function
of version, status code, a declared `Transfer-Encoding: chunked`, and the
presence of a `Content-Length` header. -/
def is_chunked_claim (version : Nat × Nat) (status : Nat)
    (teChunked clPresent : Bool) : Bool :=
  if versionLE version (1, 0) then false
  else if has_empty_content status then false
  else if teChunked then true
  else !clPresent

/-- Whether a `Content-Length` header with a non-empty value is present —
the condition the code actually branches on. -/
def clNonEmpty (h : Headers) : Bool :=
  match h.get "Content-Length" with
  | some v => !(v = "")
  | none => false

/-- The keep-alive priority table exactly as the claim states it
("1.1 or later" in the default case). -/
def decideKeepAlive_claim (tokens : List String) (version : Nat × Nat) : Bool :=
  if tokens.contains "close" then false
  else if tokens.contains "upgrade" then true
  else if tokens.contains "keep-alive" then true
  else if versionLE (1, 1) version then true
  else false

/-- The keep-alive priority table amended to the code's version test
(exactly HTTP/1.1 in the default case), together with the forced outgoing
`Connection` header value when one is written. -/
def decideKeepAlive_amended (tokens : List String) (version : Nat × Nat) :
    Bool × Option String :=
  if tokens.contains "close" then (false, none)
  else if tokens.contains "upgrade" then (true, some "Upgrade")
  else if tokens.contains "keep-alive" then (true, none)
  else if version = (1, 1) then (true, some "keep-alive")
  else (false, none)

/-- `MAX_CHUNK_SIZE` from the source. -/
def MAX_CHUNK_SIZE : Nat := 65536

/-- Uppercase hexadecimal digit for a value below 16. -/
def hexDigitChar (n : Nat) : Char :=
  if n < 10 then Char.ofNat ('0'.toNat + n) else Char.ofNat ('A'.toNat + (n - 10))

/-- Fuelled core of `"%X" % n`.  Fuel `n + 1` always suffices because the
value shrinks by a factor of 16 every step. -/
def toHexAux : Nat → Nat → List Char
  | 0, _ => []
  | fuel + 1, n =>
    if n < 16 then [hexDigitChar n]
    else toHexAux fuel (n / 16) ++ [hexDigitChar (n % 16)]

/-- `("%X" % n).encode('utf-8')`: shortest uppercase hexadecimal rendering. -/
def toHex (n : Nat) : List Char := toHexAux (n + 1) n

/-- `chunk_encoding(chunk)` from the source: hex size, CRLF, data, CRLF.
A size of 0 produces the terminating chunk `0\r\n\r\n`. -/
def chunk_encoding (chunk : ByteStr) : ByteStr :=
  toHex chunk.length ++ CRLF ++ chunk ++ CRLF

/-- Fuelled form of the fragment-splitting loop in `generate`:
`while len(b) >= MAX_CHUNK_SIZE` peel a MAX_CHUNK_SIZE piece; afterwards
keep the remainder only if non-empty.  Fuel `b.length` always suffices
because each iteration drops MAX_CHUNK_SIZE ≥ 1 bytes. -/
def splitChunksAux : Nat → ByteStr → List ByteStr
  | 0, b => if b.isEmpty then [] else [b]
  | fuel + 1, b =>
    if MAX_CHUNK_SIZE ≤ b.length then
      b.take MAX_CHUNK_SIZE :: splitChunksAux fuel (b.drop MAX_CHUNK_SIZE)
    else if b.isEmpty then [] else [b]

/-- The pieces the `generate` loop feeds to `chunk_encoding` for one body
fragment. -/
def splitChunks (b : ByteStr) : List ByteStr := splitChunksAux b.length b

/-- Concatenated chunk frames for a list of pieces. -/
def encodeChunks (cs : List ByteStr) : ByteStr := (cs.map chunk_encoding).flatten

/-- Wire bytes for a sequence of body fragments: each fragment is split as in
`generate` and every piece is chunk-encoded (the terminating chunk is not
included). -/
def encodeFragments (frags : List ByteStr) : ByteStr :=
  encodeChunks ((frags.map splitChunks).flatten)

/-- Number of chunk frames produced for a fragment sequence. -/
def numChunks (frags : List ByteStr) : Nat :=
  ((frags.map splitChunks).flatten).length

/-- Modelled from the spec: value of a hexadecimal digit, accepting both
cases as a conformant chunked-body decoder does. -/
def hexVal (c : Char) : Option Nat :=
  let n := c.toNat
  if 48 ≤ n ∧ n ≤ 57 then some (n - 48)
  else if 65 ≤ n ∧ n ≤ 70 then some (n - 55)
  else if 97 ≤ n ∧ n ≤ 102 then some (n - 87)
  else none

/-- Whether a character is a hexadecimal digit. -/
def isHexDigit (c : Char) : Bool := (hexVal c).isSome

/-- Numeric value of a hexadecimal digit string. -/
def hexNum (ds : List Char) : Nat :=
  ds.foldl (fun a c => 16 * a + (hexVal c).getD 0) 0

/-- Modelled from the spec: a conformant decoder's chunk-size line parse —
one or more hexadecimal digits followed by CRLF. -/
def readHexLine (s : ByteStr) : Option (Nat × ByteStr) :=
  let ds := s.takeWhile isHexDigit
  let rest := s.dropWhile isHexDigit
  if ds.isEmpty then none
  else if rest.take 2 = CRLF then some (hexNum ds, rest.drop 2) else none

/-- Modelled from the spec: one step of a conformant chunked-body decoder —
read the size line; a zero size consumes the final CRLF and terminates,
a non-zero size consumes that many data bytes plus CRLF and continues via
`next`. -/
def decodeStep (next : ByteStr → Option (ByteStr × ByteStr)) (s : ByteStr) :
    Option (ByteStr × ByteStr) :=
  match readHexLine s with
  | none => none
  | some (n, rest) =>
    if n = 0 then
      if rest.take 2 = CRLF then some ([], rest.drop 2) else none
    else
      if 2 + n ≤ rest.length ∧ (rest.drop n).take 2 = CRLF then
        match next (rest.drop (n + 2)) with
        | none => none
        | some (body, rem) => some (rest.take n ++ body, rem)
      else none

/-- Modelled from the spec: a conformant chunked-body decoder.  Reads
size-prefixed chunks until the zero-size chunk, returning the decoded body
bytes and the unread remainder of the input (showing where decoding
terminates).  `fuel` bounds the number of chunks read. -/
def decodeChunks : Nat → ByteStr → Option (ByteStr × ByteStr)
  | 0, _ => none
  | fuel + 1, s => decodeStep (decodeChunks fuel) s

/-- The header-adding loop of `start_response`: hop-by-hop headers supplied
by the application are dropped (with a logged warning), the rest are
appended with `add_header`. -/
def addRespHeaders (h : Headers) (rh : List (String × String)) : Headers :=
  rh.foldl
    (fun acc p =>
      if (lowerStr p.1) ∈ HOP_HEADERS then acc else acc.add_header p.1 p.2)
    h

/-- `start_response(status, response_headers, exc_info)` from the source:
with `exc_info` it raises (re-raising the supplied exception) exactly when
the headers have already been sent; without `exc_info` it raises
`HttpException` when a status is already set.  On success it records the
status and appends the non-hop headers.  Errors carry no updated state:
the already-set status and headers are left unchanged. -/
def RState.start_response (st : RState) (status : String)
    (rh : List (String × String)) (hasExcInfo : Bool) : Except String RState :=
  if hasExcInfo then
    if st.headersSent.isSome then Except.error "exc_info re-raised"
    else Except.ok { st with status := some status,
                             headers := addRespHeaders st.headers rh }
  else if st.status.isSome then Except.error "Response headers already set!"
  else Except.ok { st with status := some status,
                           headers := addRespHeaders st.headers rh }

/-- `get_headers(force)` from the source: produce the headers to send only on
an HTTP upgrade or when forced; fix up `Transfer-Encoding`/`Content-Length`
according to `is_chunked`, and force `Connection: close` when keep-alive is
off.  (The source raises when no status is set; `generate` only reaches
this call with a status in place, which the theorems assume.) -/
def RState.get_headers (st : RState) (force : Bool) : Option Headers :=
  if st.upgrade.isSome || force then
    some
      (let h := st.headers
       let h2 := if st.is_chunked
                 then (h.set "Transfer-Encoding" "chunked").pop "content-length"
                 else h.pop "Transfer-Encoding"
       if !st.keepAlive then h2.set "connection" "close" else h2)
  else none

/-- `send_headers(force)` from the source: if the headers were not sent yet
and `get_headers` yields them, record the flattened bytes in
`_headers_sent` (keeping the mutated header set) and return them. -/
def RState.send_headers (st : RState) (force : Bool) : RState × Option ByteStr :=
  match st.headersSent with
  | some _ => (st, none)
  | none =>
    match st.get_headers force with
    | none => (st, none)
    | some h =>
      let flatBytes := h.flat st.version (st.status.getD "")
      ({ st with headers := h, headersSent := some flatBytes }, some flatBytes)

/-- Wire fragments emitted for one non-empty body fragment: chunk-split and
encoded when the response is chunked, the raw bytes otherwise. -/
def encodeBody (chunked : Bool) (b : ByteStr) : List ByteStr :=
  if chunked then (splitChunks b).map chunk_encoding else [b]

/-- The `for b in iterable` loop body of `generate`: for each fragment, send
the headers (forced by a non-empty fragment), then yield the encoded
fragment; an empty fragment yields the empty bytestring. -/
def runFrags (st : RState) (frags : List ByteStr) : RState × List ByteStr :=
  match frags with
  | [] => (st, [])
  | b :: rest =>
    let sent := st.send_headers (!b.isEmpty)
    let outHead := match sent.2 with
      | some hd => [hd]
      | none => []
    let outBody := if b.isEmpty then [[]] else encodeBody sent.1.chunkedHdr b
    let next := runFrags sent.1 rest
    (next.1, outHead ++ outBody ++ next.2)

/-- Outcome of one `generate` run: final state, yielded wire fragments, and
whether the connection was closed at finalization
(`if not self.keep_alive: self.connection.close()`). -/
structure GenResult where
  st : RState
  out : List ByteStr
  closed : Bool
deriving DecidableEq

/-- Finalization after the loop breaks or completes: the connection is
closed exactly when keep-alive is off. -/
def finishGen (st : RState) (out : List ByteStr) : GenResult :=
  { st := st, out := out, closed := !st.keepAlive }

/-- The `else` clause of the `generate` loop (normal exhaustion): force the
header flush, emit the terminating chunk when chunked, and finalize. -/
def endOk (st : RState) (out : List ByteStr) : GenResult :=
  let sent := st.send_headers true
  let outHead := match sent.2 with
    | some hd => [hd]
    | none => []
  let outLast := if sent.1.chunkedHdr then [chunk_encoding []] else []
  finishGen sent.1 (out ++ outHead ++ outLast)

/-- The application as `generate` consumes it: the status and header list it
passes to `start_response`, the body fragments its iterable yields, and
whether pulling past them raises. -/
structure AppRun where
  status : String
  rheaders : List (String × String)
  frags : List ByteStr
  raises : Bool

/-- Modelled from the spec: the substitute error response built by
`handle_wsgi_error` — a status code with reason, its own headers and lazy
body, which may itself fail while generating. -/
structure ErrResponse where
  status_code : Nat
  reason : String
  rheaders : List (String × String)
  frags : List ByteStr
  raises : Bool

/-- The WSGI status line of the substitute response. -/
def ErrResponse.statusLine (e : ErrResponse) : String :=
  toString e.status_code ++ " " ++ e.reason

/-- The substitution path of `generate`'s `except` clause when headers are
unsent: disable keep-alive unless the substitute status is redirect-class,
call `start_response` with `exc_info`, and run the substitute's own body;
a second failure (or a `start_response` re-raise) takes the fatal branch:
keep-alive off, loop broken with no further substitution. -/
def substituteRun (st : RState) (err : ErrResponse) (out1 : List ByteStr) :
    GenResult :=
  let st2 := if REDIRECT_CODE err.status_code then st
             else { st with keepAlive := false }
  match st2.start_response err.statusLine err.rheaders true with
  | Except.error _ => finishGen { st2 with keepAlive := false } out1
  | Except.ok st3 =>
    let run2 := runFrags st3 err.frags
    if err.raises then
      finishGen { run2.1 with keepAlive := false } (out1 ++ run2.2)
    else endOk run2.1 (out1 ++ run2.2)

/-- `generate(environ)` from the source, unrolled over the at-most-one error
substitution the `exc_info` flag permits: run the application (its
`start_response` call, then its fragments); on an application failure take
the fatal branch if headers were sent, otherwise substitute once; on
normal exhaustion flush and finalize. -/
def generate (st0 : RState) (app : AppRun) (err : ErrResponse) : GenResult :=
  match st0.start_response app.status app.rheaders false with
  | Except.error _ =>
    if st0.headersSent.isSome then finishGen { st0 with keepAlive := false } []
    else substituteRun st0 err []
  | Except.ok st1 =>
    let run1 := runFrags st1 app.frags
    if app.raises then
      if run1.1.headersSent.isSome then
        finishGen { run1.1 with keepAlive := false } run1.2
      else substituteRun run1.1 err run1.2
    else endOk run1.1 run1.2

/-- The state after a fresh cycle's first `start_response` call (the
success path taken when no status is set yet). -/
def appState (st0 : RState) (app : AppRun) : RState :=
  { st0 with status := some app.status,
             headers := addRespHeaders st0.headers app.rheaders }

/-- The state entering the substitute response's body run: keep-alive
dropped unless the status is redirect-class, then the substitute's
`start_response` with `exc_info` (succeeding because headers are unsent). -/
def substState (st : RState) (err : ErrResponse) : RState :=
  let st2 := if REDIRECT_CODE err.status_code then st
             else { st with keepAlive := false }
  { st2 with status := some err.statusLine,
             headers := addRespHeaders st2.headers err.rheaders }

/-- The wire bytes of the `100 Continue` provisional response written by
`expect_continue`. -/
def continueBytes : ByteStr := "HTTP/1.1 100 Continue\r\n\r\n".toList

/-- `expect_continue` from the source: write the `100 Continue` bytes
whenever the request headers carry `Expect: 100-continue` — the method
itself keeps no record of having run.  Returns the bytes written by this
one invocation. -/
def expect_continue (reqHeaders : Headers) : ByteStr :=
  if reqHeaders.has "expect" "100-continue" then continueBytes else []

/-- One parser outcome for a `data_received` call, as the source reads it
from the external parser: whether `execute` consumed all bytes, whether
the headers and the message are complete, and the parsed request headers. -/
structure ParseEvent where
  consumedAll : Bool
  headersComplete : Bool
  messageComplete : Bool
  headers : Headers

/-- Per-request connection state relevant to `data_received`: the
`_request_headers` attribute, none until the headers first complete. -/
structure ConnState where
  requestHeaders : Option Headers
deriving DecidableEq

/-- Bytes written during one `data_received` call, split by call site:
`cont` from `expect_continue`'s `transport.write`, `resp` from
`transport.writelines(generate(...))`. -/
structure StepOut where
  cont : ByteStr
  resp : ByteStr
deriving DecidableEq

/-- `data_received` from the source: on a full parse, record the request
headers the first time they are complete and call `expect_continue` then
(only when the message is not yet done); once the message is done, write
the generated response (abstracted as `respBytes`).  A parse failure
raises `ProtocolError` (none). -/
def data_received (st : ConnState) (ev : ParseEvent) (respBytes : ByteStr) :
    Option (ConnState × StepOut) :=
  if ev.consumedAll then
    let done := ev.messageComplete
    let step :=
      if st.requestHeaders.isNone && ev.headersComplete then
        (ConnState.mk (some ev.headers),
         if !done then expect_continue ev.headers else [])
      else (st, [])
    some (step.1, { cont := step.2, resp := if done then respBytes else [] })
  else none

/-- Repeated `data_received` calls over a list of parser events; processing
stops at a parse error. -/
def runConn (st : ConnState) (evs : List ParseEvent) (respBytes : ByteStr) :
    ConnState × List StepOut :=
  match evs with
  | [] => (st, [])
  | ev :: rest =>
    match data_received st ev respBytes with
    | none => (st, [])
    | some (st1, out) =>
      let next := runConn st1 rest respBytes
      (next.1, out :: next.2)

/-- Python `str.strip()`: drop whitespace from both ends. -/
def stripChars (s : List Char) : List Char :=
  ((s.dropWhile Char.isWhitespace).reverse.dropWhile Char.isWhitespace).reverse

/-- Python `str.split(sep)` for a one-character separator. -/
def splitOnChar (sep : Char) : List Char → List (List Char)
  | [] => [[]]
  | c :: rest =>
    let r := splitOnChar sep rest
    if c = sep then [] :: r
    else
      match r with
      | [] => [[c]]
      | h :: t => (c :: h) :: t

/-- Python `s.rsplit(sep, 1)[1]` for a one-character separator: the suffix
after the last separator (the whole string when no separator occurs). -/
def afterLastComma (s : List Char) : List Char :=
  (s.reverse.takeWhile (fun c => c ≠ ',')).reverse

/-- The `REMOTE_ADDR`/`REMOTE_PORT` computation of `wsgi_environ` (source
lines 332–343): when an `X-Forwarded-For` value is present it is used —
taking the stripped part after the last comma when one occurs — split on
`:`, with `80` appended when no port part exists; only when the header is
absent does the transport peer address supply both fields. -/
def remote_addr_port (peerHost : List Char) (peerPort : Nat)
    (xff : Option (List Char)) : List Char × List Char :=
  match xff with
  | none => (peerHost, (toString peerPort).toList)
  | some forward =>
    let fwd := if forward.contains ','
               then stripChars (afterLastComma forward)
               else forward
    let remote := splitOnChar ':' fwd
    let remote2 := if remote.length < 2 then remote ++ [['8', '0']] else remote
    (remote2.getD 0 [], remote2.getD 1 [])

/-- The hop-header branch of `wsgi_environ`'s request-header loop (source
lines 309–312): each request header whose lowercased name is in
`HOP_HEADERS` is assigned into the outgoing response headers under its
lowercased name (mapping assignment, replacing earlier values). -/
def envHeaderLoop (respHeaders : Headers) (req : List (String × String)) : Headers :=
  req.foldl
    (fun h p =>
      if (lowerStr p.1) ∈ HOP_HEADERS then h.set (lowerStr p.1) p.2 else h)
    respHeaders

/-- The value of the last request header whose lowercased name is `name`. -/
def lastVal (req : List (String × String)) (name : String) : Option String :=
  (req.reverse.find? (fun p => (lowerStr p.1) = name)).map (fun p => p.2)

/-! ## Theorems -/

/-- C1, counterexample: a `Content-Length` header that is present but carries
an empty value defeats the claim.  At version (1,1), status "200 OK", no
`Transfer-Encoding`, and `Content-Length: `, the code selects chunked
(`if c:` treats the empty value as absent) while the claim's rule — false
whenever a `Content-Length` header is present — selects non-chunked. -/
theorem is_chunked_empty_content_length_counterexample :
    (({ status := some "200 OK", headers := ⟨[("Content-Length", "")]⟩,
        headersSent := none, keepAlive := true, version := (1, 1) } : RState)).is_chunked = true
    ∧ (⟨[("Content-Length", "")]⟩ : Headers).get "Content-Length" = some ""
    ∧ (⟨[("Content-Length", "")]⟩ : Headers).get "Transfer-Encoding" = none
    ∧ statusCode "200 OK" = 200
    ∧ is_chunked_claim (1, 1) 200 false true = false := by
  decide

/-- C1, amended: `is_chunked` selects chunked transfer encoding exactly by the
claim's rule with the final condition read as "no `Content-Length` header
with a non-empty value is present" (for header values that are empty or
numeric, as non-numeric values make the code raise instead). -/
theorem is_chunked_characterization (st : RState) (s : String)
    (hs : st.status = some s)
    (hcl : ∀ v, st.headers.get "Content-Length" = some v →
        v = "" ∨ (digitsVal v.toList).isSome) :
    st.is_chunked =
      is_chunked_claim st.version (statusCode s)
        (st.headers.get "Transfer-Encoding" == some "chunked")
        (clNonEmpty st.headers) := by
  unfold RState.is_chunked is_chunked_claim clNonEmpty content_length
  rw [hs]
  cases hget : st.headers.get "Content-Length" with
  | none => simp
  | some v =>
    rcases hcl v hget with hv | hv
    · subst hv; simp
    · by_cases hve : v = ""
      · subst hve; simp
      · rcases Option.isSome_iff_exists.mp hv with ⟨n, hn⟩
        have hn2 : digitsVal v.data = some n := hn
        simp [hn2, hve]

/-- Witness for `is_chunked_characterization` at a concrete state with
`Content-Length: 11`. -/
theorem is_chunked_characterization_witness :
    (({ status := some "200 OK", headers := ⟨[("Content-Length", "11")]⟩,
        headersSent := none, keepAlive := true, version := (1, 1) } : RState)).is_chunked =
      is_chunked_claim (1, 1) (statusCode "200 OK")
        ((⟨[("Content-Length", "11")]⟩ : Headers).get "Transfer-Encoding" == some "chunked")
        (clNonEmpty ⟨[("Content-Length", "11")]⟩) :=
  is_chunked_characterization
    { status := some "200 OK", headers := ⟨[("Content-Length", "11")]⟩,
      headersSent := none, keepAlive := true, version := (1, 1) } "200 OK"
    (by decide) (by decide)

/-- C2, counterexample: the claim's priority table defaults to keep-alive for
protocol version "1.1 or later", but the code tests `version == (1, 1)`
exactly: at version (1,2) with no `Connection` tokens the code returns
false while the claim's table returns true. -/
theorem keep_alive_not_later_versions_counterexample :
    (keep_alive ⟨[]⟩ (1, 2)).1 = false
    ∧ decideKeepAlive_claim [] (1, 2) = true
    ∧ versionLE (1, 1) (1, 2) = true := by
  decide

/-- C2, amended: `keep_alive` matches the priority table with the default
case restricted to protocol version exactly (1,1): close → false; else
upgrade → true forcing `Connection: Upgrade`; else keep-alive → true; else
version = (1,1) → true setting `Connection: keep-alive`; otherwise false.
The decision and the header effect both match. -/
theorem keep_alive_matches_amended_table (h : Headers) (version : Nat × Nat) :
    (keep_alive h version).1 =
      (decideKeepAlive_amended ((h.get_all "connection").map lowerStr) version).1
    ∧ (keep_alive h version).2 =
      (match (decideKeepAlive_amended ((h.get_all "connection").map lowerStr) version).2 with
       | some v => h.set "connection" v
       | none => h) := by
  simp only [keep_alive, decideKeepAlive_amended]
  split_ifs <;> exact ⟨rfl, rfl⟩

theorem hexVal_hexDigitChar (n : Nat) (h : n < 16) :
    hexVal (hexDigitChar n) = some n := by
  interval_cases n <;> decide

theorem toHexAux_all_hex (fuel n : Nat) :
    ∀ c ∈ toHexAux fuel n, isHexDigit c = true := by
  induction fuel generalizing n with
  | zero => simp [toHexAux]
  | succ f ih =>
    intro c hc
    simp only [toHexAux] at hc
    split at hc
    · next hlt =>
      simp only [List.mem_singleton] at hc
      subst hc
      simp [isHexDigit, hexVal_hexDigitChar _ hlt]
    · rcases List.mem_append.mp hc with h1 | h1
      · exact ih _ _ h1
      · simp only [List.mem_singleton] at h1
        subst h1
        simp [isHexDigit, hexVal_hexDigitChar _ (Nat.mod_lt _ (by norm_num))]

theorem hexNum_append_digit (ds : List Char) (c : Char) :
    hexNum (ds ++ [c]) = 16 * hexNum ds + (hexVal c).getD 0 := by
  simp [hexNum, List.foldl_append]

theorem hexNum_toHexAux (fuel n : Nat) (h : n < 16 ^ fuel) :
    hexNum (toHexAux fuel n) = n := by
  induction fuel generalizing n with
  | zero =>
    have : n = 0 := by simpa using h
    subst this
    rfl
  | succ f ih =>
    simp only [toHexAux]
    split
    · next hlt => simp [hexNum, hexVal_hexDigitChar _ hlt]
    · next hge =>
      have hdiv : n / 16 < 16 ^ f := by
        rw [Nat.div_lt_iff_lt_mul (by norm_num : 0 < 16)]
        calc n < 16 ^ (f + 1) := h
          _ = 16 ^ f * 16 := by rw [pow_succ]
      rw [hexNum_append_digit, ih _ hdiv,
          hexVal_hexDigitChar _ (Nat.mod_lt _ (by norm_num))]
      simp [Nat.div_add_mod]

theorem hexNum_toHex (n : Nat) : hexNum (toHex n) = n :=
  hexNum_toHexAux _ _ (lt_of_lt_of_le (Nat.lt_pow_self (by norm_num) n)
    (Nat.pow_le_pow_right (by norm_num) (Nat.le_succ n)))

theorem toHex_ne_nil (n : Nat) : toHex n ≠ [] := by
  unfold toHex toHexAux
  split <;> simp

theorem toHex_all_hex (n : Nat) : ∀ c ∈ toHex n, isHexDigit c = true :=
  toHexAux_all_hex _ _

theorem takeWhile_append_stop (p : Char → Bool) (xs : List Char) (y : Char)
    (ys : List Char) (hx : ∀ c ∈ xs, p c = true) (hy : p y = false) :
    (xs ++ y :: ys).takeWhile p = xs ∧ (xs ++ y :: ys).dropWhile p = y :: ys := by
  induction xs with
  | nil => simp [List.takeWhile_cons, List.dropWhile_cons, hy]
  | cons a as ih =>
    have ha : p a = true := hx a (by simp)
    have h2 := ih (fun c hc => hx c (by simp [hc]))
    simp [List.takeWhile_cons, List.dropWhile_cons, ha, h2.1, h2.2]

theorem readHexLine_encode (n : Nat) (rest : ByteStr) :
    readHexLine (toHex n ++ (CRLF ++ rest)) = some (n, rest) := by
  have hsplit := takeWhile_append_stop isHexDigit (toHex n) '\r' ('\n' :: rest)
    (toHex_all_hex n) (by decide)
  have hshape : toHex n ++ (CRLF ++ rest) = toHex n ++ '\r' :: '\n' :: rest := rfl
  rw [hshape]
  unfold readHexLine
  simp only [hsplit.1, hsplit.2]
  rw [if_neg (by simpa [List.isEmpty_iff] using toHex_ne_nil n)]
  simp [hexNum_toHex, CRLF]

theorem decodeStep_term (next : ByteStr → Option (ByteStr × ByteStr))
    (rest : ByteStr) :
    decodeStep next (chunk_encoding [] ++ rest) = some ([], rest) := by
  have hshape : chunk_encoding [] ++ rest = toHex 0 ++ (CRLF ++ (CRLF ++ rest)) := by
    simp [chunk_encoding]
  rw [hshape]
  simp only [decodeStep, readHexLine_encode]
  simp [CRLF]

theorem decodeChunks_term (fuel : Nat) (rest : ByteStr) :
    decodeChunks (fuel + 1) (chunk_encoding [] ++ rest) = some ([], rest) :=
  decodeStep_term (decodeChunks fuel) rest

theorem decodeStep_cons (next : ByteStr → Option (ByteStr × ByteStr))
    (c rest : ByteStr) (hc : c ≠ []) :
    decodeStep next (chunk_encoding c ++ rest) =
      match next rest with
      | none => none
      | some (body, rem) => some (c ++ body, rem) := by
  have hshape : chunk_encoding c ++ rest = toHex c.length ++ (CRLF ++ (c ++ (CRLF ++ rest))) := by
    simp [chunk_encoding]
  rw [hshape]
  simp only [decodeStep, readHexLine_encode]
  have hn : c.length ≠ 0 := by simpa using hc
  rw [if_neg hn]
  have hdropc : (c ++ (CRLF ++ rest)).drop c.length = CRLF ++ rest :=
    List.drop_left c (CRLF ++ rest)
  have hguard : 2 + c.length ≤ (c ++ (CRLF ++ rest)).length ∧
      ((c ++ (CRLF ++ rest)).drop c.length).take 2 = CRLF := by
    refine ⟨?_, ?_⟩
    · simp [CRLF]
      omega
    · rw [hdropc]
      rfl
  rw [if_pos hguard]
  have htake : (c ++ (CRLF ++ rest)).take c.length = c := List.take_left c _
  have hdrop2 : (c ++ (CRLF ++ rest)).drop (c.length + 2) = rest := by
    rw [← List.drop_drop, hdropc]
    rfl
  rw [htake, hdrop2]

theorem decodeChunks_cons (fuel : Nat) (c rest : ByteStr) (hc : c ≠ []) :
    decodeChunks (fuel + 1) (chunk_encoding c ++ rest) =
      match decodeChunks fuel rest with
      | none => none
      | some (body, rem) => some (c ++ body, rem) :=
  decodeStep_cons (decodeChunks fuel) c rest hc

theorem decode_encodeChunks (cs : List ByteStr) (hne : ∀ c ∈ cs, c ≠ []) :
    ∀ fuel, cs.length < fuel →
      decodeChunks fuel (encodeChunks cs ++ chunk_encoding []) = some (cs.flatten, []) := by
  induction cs with
  | nil =>
    intro fuel hf
    match fuel, hf with
    | f + 1, _ =>
      have := decodeChunks_term f []
      simpa [encodeChunks] using this
  | cons c cs ih =>
    intro fuel hf
    match fuel, hf with
    | f + 1, hf =>
      have hshape : encodeChunks (c :: cs) ++ chunk_encoding [] =
          chunk_encoding c ++ (encodeChunks cs ++ chunk_encoding []) := by
        simp [encodeChunks]
      rw [hshape]
      rw [decodeChunks_cons f c _ (hne c (by simp))]
      rw [ih (fun x hx => hne x (by simp [hx])) f (by simpa using hf)]
      simp

theorem splitChunksAux_spec (fuel : Nat) :
    ∀ b : ByteStr, b.length ≤ fuel →
      (splitChunksAux fuel b).flatten = b ∧ ∀ c ∈ splitChunksAux fuel b, c ≠ [] := by
  induction fuel with
  | zero =>
    intro b hb
    have : b = [] := List.length_eq_zero.mp (Nat.le_zero.mp hb)
    subst this
    simp [splitChunksAux]
  | succ f ih =>
    intro b hb
    simp only [splitChunksAux]
    split
    · next hge =>
      have hmax : 0 < MAX_CHUNK_SIZE := by norm_num [MAX_CHUNK_SIZE]
      have hlen : (b.drop MAX_CHUNK_SIZE).length ≤ f := by
        rw [List.length_drop]
        omega
      have hrec := ih _ hlen
      refine ⟨?_, ?_⟩
      · simp [hrec.1, List.take_append_drop]
      · intro c hc
        rcases List.mem_cons.mp hc with h1 | h1
        · subst h1
          have : (b.take MAX_CHUNK_SIZE).length = MAX_CHUNK_SIZE := by
            rw [List.length_take]
            omega
          intro hnil
          rw [hnil] at this
          simp at this
          omega
        · exact hrec.2 c h1
    · split
      · next he => simp [List.isEmpty_iff.mp he]
      · next he =>
        refine ⟨by simp, ?_⟩
        intro c hc
        rcases List.mem_singleton.mp hc with rfl
        simpa [List.isEmpty_iff] using he

theorem splitChunks_flatten (b : ByteStr) : (splitChunks b).flatten = b :=
  (splitChunksAux_spec b.length b le_rfl).1

theorem splitChunks_ne_nil (b : ByteStr) : ∀ c ∈ splitChunks b, c ≠ [] :=
  (splitChunksAux_spec b.length b le_rfl).2

theorem flatten_splitChunks (frags : List ByteStr) :
    ((frags.map splitChunks).flatten).flatten = frags.flatten := by
  induction frags with
  | nil => rfl
  | cons b bs ih => simp [splitChunks_flatten, ih]

/-- C5: splitting each body fragment as `generate` does (pieces of at most
MAX_CHUNK_SIZE bytes, empty fragments contributing nothing), encoding each
piece with `chunk_encoding`, concatenating, and appending the terminating
`chunk_encoding []` yields a wire stream that a conformant chunked-body
decoder parses back to exactly the original concatenated fragment bytes in
order, terminating right after the zero-size chunk (empty remainder). -/
theorem chunked_roundtrip (frags : List ByteStr) (fuel : Nat)
    (hfuel : numChunks frags < fuel) :
    decodeChunks fuel (encodeFragments frags ++ chunk_encoding []) =
      some (frags.flatten, []) := by
  have hne : ∀ c ∈ (frags.map splitChunks).flatten, c ≠ [] := by
    intro c hc
    rcases List.mem_flatten.mp hc with ⟨l, hl, hcl⟩
    rcases List.mem_map.mp hl with ⟨b, _, rfl⟩
    exact splitChunks_ne_nil b c hcl
  rw [encodeFragments, decode_encodeChunks _ hne fuel hfuel, flatten_splitChunks]

/-- Witness for `chunked_roundtrip` on the fragments `[hi, (empty), !]`. -/
theorem chunked_roundtrip_witness :
    numChunks [['h', 'i'], [], ['!']] < 5 ∧
    decodeChunks 5 (encodeFragments [['h', 'i'], [], ['!']] ++ chunk_encoding []) =
      some (([['h', 'i'], [], ['!']] : List ByteStr).flatten, []) :=
  ⟨by decide, chunked_roundtrip [['h', 'i'], [], ['!']] 5 (by decide)⟩

theorem send_headers_keepAlive (st : RState) (force : Bool) :
    ((st.send_headers force).1).keepAlive = st.keepAlive := by
  unfold RState.send_headers
  cases st.headersSent with
  | some bs => rfl
  | none => cases st.get_headers force <;> rfl

theorem runFrags_keepAlive (st : RState) (frags : List ByteStr) :
    ((runFrags st frags).1).keepAlive = st.keepAlive := by
  induction frags generalizing st with
  | nil => rfl
  | cons b rest ih =>
    show ((runFrags (st.send_headers (!b.isEmpty)).1 rest).1).keepAlive = st.keepAlive
    rw [ih, send_headers_keepAlive]

theorem endOk_keepAlive (st : RState) (out : List ByteStr) :
    (endOk st out).st.keepAlive = st.keepAlive ∧
    (endOk st out).closed = !st.keepAlive := by
  constructor
  · show ((st.send_headers true).1).keepAlive = st.keepAlive
    exact send_headers_keepAlive st true
  · show (!((st.send_headers true).1).keepAlive) = !st.keepAlive
    rw [send_headers_keepAlive]

theorem flatten_replicate_nil (n : Nat) :
    (List.replicate n ([] : ByteStr)).flatten = [] := by
  induction n with
  | zero => rfl
  | succ k ih => simp [List.replicate_succ, ih]

theorem runFrags_all_empty (st : RState) (frags : List ByteStr)
    (hup : st.upgrade.isSome = false)
    (hsent : st.headersSent = none)
    (hemp : ∀ b ∈ frags, b = ([] : ByteStr)) :
    runFrags st frags = (st, List.replicate frags.length []) := by
  induction frags with
  | nil => rfl
  | cons b rest ih =>
    have hb : b = [] := hemp b (by simp)
    subst hb
    have hsend : st.send_headers (!([] : ByteStr).isEmpty) = (st, none) := by
      unfold RState.send_headers RState.get_headers
      rw [hsent]
      simp [hup]
    have ihr := ih (fun c hc => hemp c (by simp [hc]))
    simp only [runFrags, hsend, ihr]
    simp [List.replicate_succ]

/-- C7: while the application has yielded only empty fragments and the
response is not an Upgrade, `generate`'s loop emits no header bytes (the
header block stays unsent) and no wire bytes at all — each empty fragment
yields the empty bytestring. -/
theorem lazy_header_flush (st : RState) (frags : List ByteStr)
    (hup : st.upgrade.isSome = false)
    (hsent : st.headersSent = none)
    (hemp : ∀ b ∈ frags, b = ([] : ByteStr)) :
    ((runFrags st frags).1).headersSent = none ∧
    ((runFrags st frags).2).flatten = [] ∧
    (runFrags st frags).1 = st := by
  rw [runFrags_all_empty st frags hup hsent hemp]
  exact ⟨hsent, flatten_replicate_nil _, rfl⟩

/-- Witness for `lazy_header_flush`: two empty fragments on a fresh state. -/
theorem lazy_header_flush_witness :
    (({ status := some "200 OK", headers := ⟨[]⟩, headersSent := none,
        keepAlive := true, version := (1, 1) } : RState)).upgrade.isSome = false ∧
    ((runFrags { status := some "200 OK", headers := ⟨[]⟩, headersSent := none,
                 keepAlive := true, version := (1, 1) } [[], []]).1).headersSent = none ∧
    ((runFrags { status := some "200 OK", headers := ⟨[]⟩, headersSent := none,
                 keepAlive := true, version := (1, 1) } [[], []]).2).flatten = [] :=
  ⟨by decide,
   (lazy_header_flush
     { status := some "200 OK", headers := ⟨[]⟩, headersSent := none,
       keepAlive := true, version := (1, 1) } [[], []]
     (by decide) (by decide) (by decide)).1,
   (lazy_header_flush
     { status := some "200 OK", headers := ⟨[]⟩, headersSent := none,
       keepAlive := true, version := (1, 1) } [[], []]
     (by decide) (by decide) (by decide)).2.1⟩

theorem start_response_fresh (st0 : RState) (app : AppRun)
    (h0 : st0.status = none) :
    st0.start_response app.status app.rheaders false = Except.ok (appState st0 app) := by
  unfold RState.start_response appState
  simp [h0]

theorem substituteRun_eq (st : RState) (err : ErrResponse) (out1 : List ByteStr)
    (hs : st.headersSent = none) :
    substituteRun st err out1 =
      (if err.raises then
        finishGen { (runFrags (substState st err) err.frags).1 with keepAlive := false }
          (out1 ++ (runFrags (substState st err) err.frags).2)
      else endOk (runFrags (substState st err) err.frags).1
        (out1 ++ (runFrags (substState st err) err.frags).2)) := by
  unfold substituteRun substState RState.start_response
  cases hred : REDIRECT_CODE err.status_code <;> simp [hs]

/-- C4: when the application raises after the header block has been sent,
`generate` takes the fatal branch: the output is exactly the fragments the
loop already produced (no substitute, no further body bytes), keep-alive
is forced off, and the connection is closed at finalization. -/
theorem fatal_after_headers_sent (st0 : RState) (app : AppRun) (err : ErrResponse)
    (h0 : st0.status = none)
    (hr : app.raises = true)
    (hs : ((runFrags (appState st0 app) app.frags).1).headersSent.isSome = true) :
    (generate st0 app err).out = (runFrags (appState st0 app) app.frags).2 ∧
    (generate st0 app err).st.keepAlive = false ∧
    (generate st0 app err).closed = true := by
  have hgen : generate st0 app err =
      finishGen { (runFrags (appState st0 app) app.frags).1 with keepAlive := false }
        ((runFrags (appState st0 app) app.frags).2) := by
    unfold generate
    rw [start_response_fresh st0 app h0]
    simp [hr, hs]
  rw [hgen]
  exact ⟨rfl, rfl, rfl⟩

/-- Witness for `fatal_after_headers_sent`: an application that yields one
non-empty fragment (flushing the headers) and then raises. -/
theorem fatal_after_headers_sent_witness :
    (({ status := none, headers := ⟨[]⟩, headersSent := none, keepAlive := true,
        version := (1, 1) } : RState)).status = none ∧
    (generate { status := none, headers := ⟨[]⟩, headersSent := none,
                keepAlive := true, version := (1, 1) }
       { status := "200 OK", rheaders := [], frags := [['x']], raises := true }
       { status_code := 500, reason := "Internal Server Error", rheaders := [],
         frags := [], raises := false }).st.keepAlive = false ∧
    (generate { status := none, headers := ⟨[]⟩, headersSent := none,
                keepAlive := true, version := (1, 1) }
       { status := "200 OK", rheaders := [], frags := [['x']], raises := true }
       { status_code := 500, reason := "Internal Server Error", rheaders := [],
         frags := [], raises := false }).closed = true :=
  ⟨by decide,
   (fatal_after_headers_sent
     { status := none, headers := ⟨[]⟩, headersSent := none, keepAlive := true,
       version := (1, 1) }
     { status := "200 OK", rheaders := [], frags := [['x']], raises := true }
     { status_code := 500, reason := "Internal Server Error", rheaders := [],
       frags := [], raises := false }
     (by decide) (by decide) (by decide)).2.1,
   (fatal_after_headers_sent
     { status := none, headers := ⟨[]⟩, headersSent := none, keepAlive := true,
       version := (1, 1) }
     { status := "200 OK", rheaders := [], frags := [['x']], raises := true }
     { status_code := 500, reason := "Internal Server Error", rheaders := [],
       frags := [], raises := false }
     (by decide) (by decide) (by decide)).2.2⟩

/-- C3: when the application raises before any headers were sent, `generate`
substitutes an error response exactly once.  If the substitute's own body
raises too, the stream ends as the fatal case: output is exactly the bytes
of the first run plus the substitute's partial run (no further
substitution), keep-alive is off and the connection closes — even though
headers may still be unsent.  If the substitute completes, keep-alive is
forced off unless its status is redirect-class, in which case the
previously computed keep-alive (`st0.keepAlive`) is left in place. -/
theorem error_substitution_once (st0 : RState) (app : AppRun) (err : ErrResponse)
    (h0 : st0.status = none)
    (hr : app.raises = true)
    (hs : ((runFrags (appState st0 app) app.frags).1).headersSent = none) :
    (err.raises = true →
      (generate st0 app err).out =
        (runFrags (appState st0 app) app.frags).2 ++
          (runFrags (substState (runFrags (appState st0 app) app.frags).1 err)
            err.frags).2 ∧
      (generate st0 app err).st.keepAlive = false ∧
      (generate st0 app err).closed = true) ∧
    (err.raises = false → REDIRECT_CODE err.status_code = false →
      (generate st0 app err).st.keepAlive = false ∧
      (generate st0 app err).closed = true) ∧
    (err.raises = false → REDIRECT_CODE err.status_code = true →
      (generate st0 app err).st.keepAlive = st0.keepAlive) := by
  have hgen : generate st0 app err =
      substituteRun (runFrags (appState st0 app) app.frags).1 err
        (runFrags (appState st0 app) app.frags).2 := by
    unfold generate
    rw [start_response_fresh st0 app h0]
    simp [hr, hs]
  rw [hgen, substituteRun_eq _ _ _ hs]
  refine ⟨?_, ?_, ?_⟩
  · intro hre
    rw [if_pos hre]
    exact ⟨rfl, rfl, rfl⟩
  · intro hre hrc
    rw [if_neg (by simp [hre])]
    have hka : ((runFrags (substState (runFrags (appState st0 app) app.frags).1 err)
        err.frags).1).keepAlive = false := by
      rw [runFrags_keepAlive]
      unfold substState
      simp [hrc]
    constructor
    · rw [(endOk_keepAlive _ _).1, hka]
    · rw [(endOk_keepAlive _ _).2, hka]
      rfl
  · intro hre hrc
    rw [if_neg (by simp [hre])]
    have hka : ((runFrags (substState (runFrags (appState st0 app) app.frags).1 err)
        err.frags).1).keepAlive = st0.keepAlive := by
      rw [runFrags_keepAlive]
      unfold substState
      simp only [hrc, if_true]
      rw [runFrags_keepAlive]
      rfl
    rw [(endOk_keepAlive _ _).1, hka]

/-- Witness for `error_substitution_once`: a 302 substitute after an
application that raises immediately; the precomputed keep-alive survives. -/
theorem error_substitution_once_witness :
    (generate { status := none, headers := ⟨[]⟩, headersSent := none,
                keepAlive := true, version := (1, 1) }
       { status := "200 OK", rheaders := [], frags := [], raises := true }
       { status_code := 302, reason := "Found", rheaders := [],
         frags := [['x']], raises := false }).st.keepAlive = true :=
  ((error_substitution_once
     { status := none, headers := ⟨[]⟩, headersSent := none, keepAlive := true,
       version := (1, 1) }
     { status := "200 OK", rheaders := [], frags := [], raises := true }
     { status_code := 302, reason := "Found", rheaders := [],
       frags := [['x']], raises := false }
     (by decide) (by decide) (by decide)).2.2 (by decide) (by decide))

/-- C6: calling `start_response` a second time without `exc_info` after a
status has been set raises (the error carries no updated state, so the
already-set status and headers stand); with `exc_info` it raises exactly
when the headers have already been sent, and succeeds (overwriting the
status) while they are unsent. -/
theorem start_response_second_call (st : RState) (s0 status : String)
    (rh : List (String × String)) (h : st.status = some s0) :
    st.start_response status rh false = Except.error "Response headers already set!" ∧
    (st.headersSent = none →
      st.start_response status rh true =
        Except.ok { st with status := some status,
                            headers := addRespHeaders st.headers rh }) ∧
    (st.headersSent.isSome = true →
      st.start_response status rh true = Except.error "exc_info re-raised") := by
  unfold RState.start_response
  refine ⟨by simp [h], ?_, ?_⟩
  · intro hsent
    simp [hsent]
  · intro hsent
    simp [hsent]

/-- C8, counterexample: the `expect_continue` operation is not idempotent —
invoked twice for the same request (headers declaring
`Expect: 100-continue`), it writes the `100 Continue` wire bytes twice,
not once; the once-per-request behaviour lives in `data_received`'s
first-completion guard, not in the operation itself. -/
theorem expect_continue_not_idempotent :
    expect_continue ⟨[("Expect", "100-continue")]⟩ ++
      expect_continue ⟨[("Expect", "100-continue")]⟩ =
      continueBytes ++ continueBytes ∧
    continueBytes ≠ [] ∧
    continueBytes ++ continueBytes ≠ continueBytes := by
  decide

theorem data_received_some_headers (h : Headers) (ev : ParseEvent) (r : ByteStr)
    (hc : ev.consumedAll = true) :
    data_received ⟨some h⟩ ev r =
      some (⟨some h⟩,
        { cont := [], resp := if ev.messageComplete then r else [] }) := by
  unfold data_received
  simp [hc]

theorem data_received_first_headers (st : ConnState) (ev : ParseEvent) (r : ByteStr)
    (h0 : st.requestHeaders = none) (hc : ev.consumedAll = true)
    (hh : ev.headersComplete = true) :
    data_received st ev r =
      some (⟨some ev.headers⟩,
        { cont := if !ev.messageComplete then expect_continue ev.headers else [],
          resp := if ev.messageComplete then r else [] }) := by
  unfold data_received
  simp [hc, h0, hh]

theorem data_received_headers_incomplete (st : ConnState) (ev : ParseEvent)
    (r : ByteStr) (hc : ev.consumedAll = true) (hh : ev.headersComplete = false) :
    data_received st ev r =
      some (st, { cont := [], resp := if ev.messageComplete then r else [] }) := by
  unfold data_received
  simp [hc, hh]

theorem runConn_cons (st : ConnState) (ev : ParseEvent) (rest : List ParseEvent)
    (r : ByteStr) (st1 : ConnState) (out : StepOut)
    (h : data_received st ev r = some (st1, out)) :
    runConn st (ev :: rest) r =
      ((runConn st1 rest r).1, out :: (runConn st1 rest r).2) := by
  conv_lhs => unfold runConn
  rw [h]

theorem runConn_after_headers (evs : List ParseEvent) (r : ByteStr) (h : Headers) :
    ∀ o ∈ (runConn ⟨some h⟩ evs r).2, o.cont = [] := by
  induction evs with
  | nil =>
    intro o ho
    simp [runConn] at ho
  | cons ev rest ih =>
    intro o ho
    by_cases hc : ev.consumedAll
    · rw [runConn_cons _ _ _ _ _ _ (data_received_some_headers h ev r hc)] at ho
      rcases List.mem_cons.mp ho with h1 | h1
      · rw [h1]
      · exact ih o h1
    · have hnone : data_received ⟨some h⟩ ev r = none := by
        unfold data_received
        simp [hc]
      unfold runConn at ho
      rw [hnone] at ho
      simp at ho

theorem pairwise_of_cont_nil (l : List StepOut) (h : ∀ o ∈ l, o.cont = []) :
    l.Pairwise (fun a b => a.resp ≠ [] → b.cont = []) := by
  induction l with
  | nil => exact List.Pairwise.nil
  | cons a t ih =>
    refine List.Pairwise.cons ?_ (ih fun o ho => h o (List.mem_cons_of_mem _ ho))
    intro b hb _
    exact h b (List.mem_cons_of_mem _ hb)

theorem countP_cont_nil (l : List StepOut) (h : ∀ o ∈ l, o.cont = []) :
    l.countP (fun o => !o.cont.isEmpty) = 0 := by
  induction l with
  | nil => rfl
  | cons a t ih =>
    rw [List.countP_cons]
    have ha : a.cont = [] := h a (by simp)
    simp [ha, ih fun o ho => h o (by simp [ho])]

/-- C8, amended: `expect_continue` itself writes the bytes on every call,
but `data_received` invokes it only at the step where the request headers
first become complete and the message is not yet done.  Hence over any
run of parser events (with the parser sanity property that a complete
message has complete headers) the `100 Continue` bytes are written at most
once, and never after response bytes have been written: any step that
wrote response output is followed only by steps with no continue output. -/
theorem expect_continue_once_per_request (st0 : ConnState)
    (evs : List ParseEvent) (r : ByteStr)
    (hp : ∀ ev ∈ evs, ev.messageComplete = true → ev.headersComplete = true) :
    ((runConn st0 evs r).2.countP (fun o => !o.cont.isEmpty)) ≤ 1 ∧
    (runConn st0 evs r).2.Pairwise (fun a b => a.resp ≠ [] → b.cont = []) := by
  revert hp
  induction evs generalizing st0 with
  | nil =>
    intro hp
    exact ⟨by simp [runConn], by simp [runConn]⟩
  | cons ev rest ih =>
    intro hp
    by_cases hc : ev.consumedAll
    · obtain ⟨req⟩ := st0
      cases hreq : req with
      | some h =>
        subst hreq
        rw [runConn_cons _ _ _ _ _ _ (data_received_some_headers h ev r hc)]
        have hall := runConn_after_headers rest r h
        constructor
        · rw [List.countP_cons]
          simp [countP_cont_nil _ hall]
        · refine List.Pairwise.cons ?_ (pairwise_of_cont_nil _ hall)
          intro b hb _
          exact hall b hb
      | none =>
        subst hreq
        by_cases hh : ev.headersComplete
        · rw [runConn_cons _ _ _ _ _ _
            (data_received_first_headers ⟨none⟩ ev r rfl hc hh)]
          have hall := runConn_after_headers rest r ev.headers
          constructor
          · rw [List.countP_cons]
            rw [countP_cont_nil _ hall]
            split_ifs <;> simp
          · refine List.Pairwise.cons ?_ (pairwise_of_cont_nil _ hall)
            intro b hb _
            exact hall b hb
        · rw [runConn_cons _ _ _ _ _ _
            (data_received_headers_incomplete ⟨none⟩ ev r hc (by simpa using hh))]
          have ihr := ih ⟨none⟩ (fun e he hm => hp e (List.mem_cons_of_mem _ he) hm)
          constructor
          · rw [List.countP_cons]
            simpa using ihr.1
          · refine List.Pairwise.cons ?_ ihr.2
            intro b hb hresp
            exfalso
            apply hresp
            have hm : ev.messageComplete = false := by
              cases hmc : ev.messageComplete
              · rfl
              · exact absurd (hp ev (by simp) hmc) (by simpa using hh)
            simp [hm]
    · have hnone : data_received st0 ev r = none := by
        unfold data_received
        simp [hc]
      unfold runConn
      rw [hnone]
      exact ⟨by simp, by simp⟩

/-- Witness for `expect_continue_once_per_request`: a headers-complete event
followed by a message-complete event. -/
theorem expect_continue_once_per_request_witness :
    (∀ ev ∈ [({ consumedAll := true, headersComplete := true,
                messageComplete := false,
                headers := ⟨[("Expect", "100-continue")]⟩ } : ParseEvent),
              { consumedAll := true, headersComplete := true,
                messageComplete := true,
                headers := ⟨[("Expect", "100-continue")]⟩ }],
        ev.messageComplete = true → ev.headersComplete = true) ∧
    ((runConn ⟨none⟩
        [({ consumedAll := true, headersComplete := true,
            messageComplete := false,
            headers := ⟨[("Expect", "100-continue")]⟩ } : ParseEvent),
         { consumedAll := true, headersComplete := true,
           messageComplete := true,
           headers := ⟨[("Expect", "100-continue")]⟩ }]
        ['R']).2.countP (fun o => !o.cont.isEmpty)) ≤ 1 :=
  ⟨by decide,
   (expect_continue_once_per_request ⟨none⟩
     [{ consumedAll := true, headersComplete := true, messageComplete := false,
        headers := ⟨[("Expect", "100-continue")]⟩ },
      { consumedAll := true, headersComplete := true, messageComplete := true,
        headers := ⟨[("Expect", "100-continue")]⟩ }]
     ['R'] (by decide)).1⟩

theorem splitOnChar_no_sep (sep : Char) (s : List Char) (h : sep ∉ s) :
    splitOnChar sep s = [s] := by
  induction s with
  | nil => rfl
  | cons c rest ih =>
    have hc : ¬(c = sep) := fun e => h (by rw [e]; exact List.mem_cons_self sep rest)
    have hr := ih (fun hm => h (List.mem_cons_of_mem c hm))
    simp [splitOnChar, hc, hr]

theorem splitOnChar_single (sep : Char) (a b : List Char)
    (ha : sep ∉ a) (hb : sep ∉ b) :
    splitOnChar sep (a ++ sep :: b) = [a, b] := by
  induction a with
  | nil =>
    simp [splitOnChar, splitOnChar_no_sep sep b hb]
  | cons c rest ih =>
    have hc : ¬(c = sep) := fun e => ha (by rw [e]; exact List.mem_cons_self sep rest)
    have hr := ih (fun hm => ha (List.mem_cons_of_mem c hm))
    simp [splitOnChar, hc, hr]

theorem afterLastComma_append (pre hop : List Char) (h : (',' : Char) ∉ hop) :
    afterLastComma (pre ++ ',' :: hop) = hop := by
  unfold afterLastComma
  have hx : (pre ++ ',' :: hop).reverse = hop.reverse ++ ',' :: pre.reverse := by
    simp
  rw [hx]
  have ht := takeWhile_append_stop (fun c => c ≠ ',') hop.reverse ',' pre.reverse
    (fun c hc => by
      have hcm : c ∈ hop := List.mem_reverse.mp hc
      have hne : c ≠ ',' := fun e => h (e ▸ hcm)
      simpa using hne)
    (by simp)
  rw [ht.1, List.reverse_reverse]

theorem mem_stripChars (s : List Char) (c : Char) (h : c ∈ stripChars s) : c ∈ s := by
  unfold stripChars at h
  have h1 : c ∈ (s.dropWhile Char.isWhitespace).reverse.dropWhile Char.isWhitespace :=
    List.mem_reverse.mp h
  have h2 : c ∈ (s.dropWhile Char.isWhitespace).reverse :=
    (List.dropWhile_sublist _).subset h1
  have h3 : c ∈ s.dropWhile Char.isWhitespace := List.mem_reverse.mp h2
  exact (List.dropWhile_sublist _).subset h3

/-- C9, counterexample: with the transport peer at 10.0.0.1:12345 and a
present but malformed `X-Forwarded-For: 1.2.3.4, ` (empty last hop), the
code yields `REMOTE_ADDR = ""`, `REMOTE_PORT = "80"` — it does not fall
back to the transport-level address as the claim requires for malformed
forwarding headers. -/
theorem remote_addr_no_fallback_counterexample :
    remote_addr_port ("10.0.0.1".toList) 12345 (some ("1.2.3.4, ".toList)) =
      ([], ['8', '0']) ∧
    ([], ['8', '0']) ≠ (("10.0.0.1".toList), ("12345".toList)) := by
  decide

/-- C9, amended: `REMOTE_ADDR`/`REMOTE_PORT` come from the last
comma-separated hop of `X-Forwarded-For` whenever the header is present,
whatever its content: the (stripped, when a comma occurs) last hop is
split on `:` with the port defaulting to `80` when absent, and malformed
values are passed through rather than replaced; only when the header is
absent is the transport peer address used. -/
theorem remote_addr_from_forward (peerHost : List Char) (peerPort : Nat) :
    remote_addr_port peerHost peerPort none = (peerHost, (toString peerPort).toList) ∧
    (∀ xs : List Char, (',' : Char) ∉ xs → (':' : Char) ∉ xs →
      remote_addr_port peerHost peerPort (some xs) = (xs, ['8', '0'])) ∧
    (∀ a b : List Char, (',' : Char) ∉ a → (',' : Char) ∉ b →
        (':' : Char) ∉ a → (':' : Char) ∉ b →
      remote_addr_port peerHost peerPort (some (a ++ ':' :: b)) = (a, b)) ∧
    (∀ pre hop : List Char, (',' : Char) ∉ hop →
      remote_addr_port peerHost peerPort (some (pre ++ ',' :: hop)) =
        remote_addr_port peerHost peerPort (some (stripChars hop))) := by
  refine ⟨rfl, ?_, ?_, ?_⟩
  · intro xs h1 h2
    simp [remote_addr_port, h1, splitOnChar_no_sep ':' xs h2]
  · intro a b ha hb ha2 hb2
    simp [remote_addr_port, ha, hb, splitOnChar_single ':' a b ha2 hb2]
  · intro pre hop hhop
    have hnm : (',' : Char) ∉ stripChars hop :=
      fun hm => hhop (mem_stripChars hop ',' hm)
    simp [remote_addr_port, hnm, afterLastComma_append pre hop hhop]

/-- Witness for `remote_addr_from_forward`: a present single-hop value with
no port is used verbatim with port 80, instead of the peer address. -/
theorem remote_addr_from_forward_witness :
    remote_addr_port ("10.0.0.1".toList) 12345 (some ("garbage".toList)) =
      ("garbage".toList, ['8', '0']) :=
  (remote_addr_from_forward ("10.0.0.1".toList) 12345).2.1 ("garbage".toList)
    (by decide) (by decide)

theorem find?_filter_of_imp {α} (p q : α → Bool) (l : List α)
    (h : ∀ x, p x = true → q x = true) :
    (l.filter q).find? p = l.find? p := by
  induction l with
  | nil => rfl
  | cons a rest ih =>
    cases hq : q a with
    | true =>
      cases hp : p a with
      | true => simp [List.filter_cons, hq, List.find?_cons, hp]
      | false => simp [List.filter_cons, hq, List.find?_cons, hp, ih]
    | false =>
      have hp : p a = false := by
        cases hpa : p a
        · rfl
        · exact absurd (h a hpa) (by simp [hq])
      simp [List.filter_cons, hq, List.find?_cons, hp, ih]

theorem filter_filter_of_imp {α} (p q : α → Bool) (l : List α)
    (h : ∀ x, p x = true → q x = true) :
    (l.filter q).filter p = l.filter p := by
  rw [List.filter_filter]
  apply List.filter_congr
  intro x _
  cases hp : p x
  · simp
  · simp [h x hp]

theorem Headers.get_set_self (h : Headers) (n v : String) :
    (h.set n v).get n = some v := by
  unfold Headers.set Headers.get
  rw [List.find?_append]
  have h1 : (h.entries.filter (fun p => (lowerStr p.1) ≠ (lowerStr n))).find?
      (fun p => (lowerStr p.1) = (lowerStr n)) = none := by
    rw [List.find?_eq_none]
    intro x hx
    have hq := List.of_mem_filter hx
    simpa using hq
  rw [h1]
  simp

theorem Headers.get_set_ne (h : Headers) (n m v : String)
    (hne : lowerStr m ≠ lowerStr n) :
    (h.set m v).get n = h.get n := by
  unfold Headers.set Headers.get
  rw [List.find?_append]
  have himp : ∀ x : String × String,
      ((lowerStr x.1) = (lowerStr n) : Bool) = true →
      ((lowerStr x.1) ≠ (lowerStr m) : Bool) = true := by
    intro x hx
    simp only [decide_eq_true_eq] at hx
    simp only [ne_eq, decide_eq_true_eq]
    exact fun e => hne (e.symm.trans hx)
  rw [find?_filter_of_imp _ _ _ himp]
  have h2 : ([(m, v)].find?
      (fun p : String × String => ((lowerStr p.1) = (lowerStr n) : Bool))) = none := by
    simp [hne]
  rw [h2, Option.or_none]

theorem Headers.get_all_set_self (h : Headers) (n v : String) :
    (h.set n v).get_all n = [v] := by
  unfold Headers.set Headers.get_all
  rw [List.filter_append]
  have h1 : (h.entries.filter (fun p => (lowerStr p.1) ≠ (lowerStr n))).filter
      (fun p => (lowerStr p.1) = (lowerStr n)) = [] := by
    rw [List.filter_eq_nil_iff]
    intro x hx
    have hq := List.of_mem_filter hx
    simpa using hq
  rw [h1]
  simp

theorem Headers.get_all_set_ne (h : Headers) (n m v : String)
    (hne : lowerStr m ≠ lowerStr n) :
    (h.set m v).get_all n = h.get_all n := by
  unfold Headers.set Headers.get_all
  rw [List.filter_append]
  have himp : ∀ x : String × String,
      ((lowerStr x.1) = (lowerStr n) : Bool) = true →
      ((lowerStr x.1) ≠ (lowerStr m) : Bool) = true := by
    intro x hx
    simp only [decide_eq_true_eq] at hx
    simp only [ne_eq, decide_eq_true_eq]
    exact fun e => hne (e.symm.trans hx)
  rw [filter_filter_of_imp _ _ _ himp]
  have h2 : ([(m, v)].filter
      (fun p : String × String => ((lowerStr p.1) = (lowerStr n) : Bool))) = [] := by
    simp [hne]
  rw [h2, List.append_nil]

theorem hop_lower : ∀ n ∈ HOP_HEADERS, lowerStr n = n := by decide

theorem lastVal_cons (p : String × String) (rest : List (String × String))
    (n : String) :
    lastVal (p :: rest) n =
      (match lastVal rest n with
       | some v => some v
       | none => if (lowerStr p.1) = n then some p.2 else none) := by
  unfold lastVal
  rw [List.reverse_cons, List.find?_append]
  cases hf : rest.reverse.find? (fun q => ((lowerStr q.1) = n : Bool)) with
  | some q => simp [hf]
  | none =>
    by_cases hp : (lowerStr p.1) = n <;> simp [hf, hp, List.find?_cons]

theorem envHeaderLoop_get (req : List (String × String)) :
    ∀ (h0 : Headers) (n : String), n ∈ HOP_HEADERS →
      (envHeaderLoop h0 req).get n =
        (match lastVal req n with
         | some v => some v
         | none => h0.get n) := by
  induction req with
  | nil =>
    intro h0 n hn
    rfl
  | cons p rest ih =>
    intro h0 n hn
    have hstep : envHeaderLoop h0 (p :: rest) =
        envHeaderLoop (if (lowerStr p.1) ∈ HOP_HEADERS
                       then h0.set (lowerStr p.1) p.2 else h0) rest := rfl
    rw [hstep, ih _ n hn, lastVal_cons]
    cases hl : lastVal rest n with
    | some v => rfl
    | none =>
      by_cases hpn : (lowerStr p.1) = n
      · rw [if_pos hpn, if_pos (show (lowerStr p.1) ∈ HOP_HEADERS by rw [hpn]; exact hn)]
        show (h0.set (lowerStr p.1) p.2).get n = some p.2
        rw [hpn]
        exact Headers.get_set_self h0 n p.2
      · rw [if_neg hpn]
        show (if (lowerStr p.1) ∈ HOP_HEADERS
              then h0.set (lowerStr p.1) p.2 else h0).get n = h0.get n
        by_cases hph : (lowerStr p.1) ∈ HOP_HEADERS
        · rw [if_pos hph]
          apply Headers.get_set_ne
          rw [hop_lower _ hph, hop_lower _ hn]
          exact hpn
        · rw [if_neg hph]

theorem envHeaderLoop_get_all (req : List (String × String)) :
    ∀ (h0 : Headers) (n : String), n ∈ HOP_HEADERS →
      (envHeaderLoop h0 req).get_all n =
        (match lastVal req n with
         | some v => [v]
         | none => h0.get_all n) := by
  induction req with
  | nil =>
    intro h0 n hn
    rfl
  | cons p rest ih =>
    intro h0 n hn
    have hstep : envHeaderLoop h0 (p :: rest) =
        envHeaderLoop (if (lowerStr p.1) ∈ HOP_HEADERS
                       then h0.set (lowerStr p.1) p.2 else h0) rest := rfl
    rw [hstep, ih _ n hn, lastVal_cons]
    cases hl : lastVal rest n with
    | some v => rfl
    | none =>
      by_cases hpn : (lowerStr p.1) = n
      · rw [if_pos hpn, if_pos (show (lowerStr p.1) ∈ HOP_HEADERS by rw [hpn]; exact hn)]
        show (h0.set (lowerStr p.1) p.2).get_all n = [p.2]
        rw [hpn]
        exact Headers.get_all_set_self h0 n p.2
      · rw [if_neg hpn]
        show (if (lowerStr p.1) ∈ HOP_HEADERS
              then h0.set (lowerStr p.1) p.2 else h0).get_all n = h0.get_all n
        by_cases hph : (lowerStr p.1) ∈ HOP_HEADERS
        · rw [if_pos hph]
          apply Headers.get_all_set_ne
          rw [hop_lower _ hph, hop_lower _ hn]
          exact hpn
        · rw [if_neg hph]

theorem keep_alive_fst_congr (h1 h2 : Headers) (version : Nat × Nat)
    (h : h1.get_all "connection" = h2.get_all "connection") :
    (keep_alive h1 version).1 = (keep_alive h2 version).1 := by
  simp only [keep_alive]
  rw [h]
  split_ifs <;> rfl

/-- C10: every client request header whose lowercased name is hop-by-hop is
copied (assigned, so the last occurrence wins) into the outgoing response
header set under its lowercased name, so a client-sent `Connection` value
becomes the sole connection entry of the response headers and the
subsequent `keep_alive` decision reads exactly the client's connection
tokens from them. -/
theorem hop_headers_copied (h0 : Headers) (req : List (String × String))
    (version : Nat × Nat) :
    (∀ n v, n ∈ HOP_HEADERS → lastVal req n = some v →
      (envHeaderLoop h0 req).get n = some v) ∧
    (∀ v, lastVal req "connection" = some v →
      (envHeaderLoop h0 req).get_all "connection" = [v]) ∧
    (∀ v, lastVal req "connection" = some v →
      (keep_alive (envHeaderLoop h0 req) version).1 =
        (keep_alive ⟨[("connection", v)]⟩ version).1) := by
  have hconn : "connection" ∈ HOP_HEADERS := by decide
  refine ⟨?_, ?_, ?_⟩
  · intro n v hn hv
    rw [envHeaderLoop_get req h0 n hn, hv]
  · intro v hv
    rw [envHeaderLoop_get_all req h0 "connection" hconn, hv]
  · intro v hv
    apply keep_alive_fst_congr
    rw [envHeaderLoop_get_all req h0 "connection" hconn, hv]
    simp [Headers.get_all]

/-- Witness for `hop_headers_copied`: a client `Connection: close` header is
copied into the response headers and drives the keep-alive decision. -/
theorem hop_headers_copied_witness :
    (envHeaderLoop ⟨[]⟩ [("Connection", "close")]).get "connection" = some "close" ∧
    (keep_alive (envHeaderLoop ⟨[]⟩ [("Connection", "close")]) (1, 1)).1 =
      (keep_alive ⟨[("connection", "close")]⟩ (1, 1)).1 :=
  ⟨(hop_headers_copied ⟨[]⟩ [("Connection", "close")] (1, 1)).1 "connection" "close"
     (by decide) (by decide),
   (hop_headers_copied ⟨[]⟩ [("Connection", "close")] (1, 1)).2.2 "close" (by decide)⟩

/-- Witness for `start_response_second_call` at a state with a set status
and unsent headers. -/
theorem start_response_second_call_witness :
    (({ status := some "200 OK", headers := ⟨[]⟩, headersSent := none,
        keepAlive := true, version := (1, 1) } : RState)).start_response
        "500 Internal Server Error" [] false =
      Except.error "Response headers already set!" :=
  (start_response_second_call
    { status := some "200 OK", headers := ⟨[]⟩, headersSent := none,
      keepAlive := true, version := (1, 1) }
    "200 OK" "500 Internal Server Error" [] (by decide)).1

end Pulsar
